import Mathlib

/-!
Shallow embedding of the uASPIre FASTQ processing pipeline
(`src/uaspire/fastq.rs` and `src/uaspire/constants.rs`).

Sequences are modelled as `List Char`; all inputs of interest are ASCII, so
one `Char` corresponds to one byte of the Rust `&str`.  A Rust operation that
can panic (string slicing out of bounds, record-identifier mismatch, integer
division by zero) is modelled by an `Option`-valued function returning `none`
at the panicking input.  Expected classification failures are `Except.error`
values, exactly as the Rust code returns `Result<_, FailReason>`.
-/

set_option synthInstance.maxSize 2000

-- ==========================================================
-- Data model (from fastq.rs)
-- ==========================================================

/-- Reasons a read pair can fail classification, in the order of the Rust
`enum FailReason` declaration. -/
inductive FailReason where
  | BaseCalls
  | ConstantSeq
  | ConstantPos
  | Barcode1
  | Barcode2
  | DiscSeq
  | DiscPos
deriving DecidableEq, Repr

/-- Orientation of the discriminator motif, from the Rust `enum Flip`. -/
inductive Flip where
  | NonFlipped
  | Flipped
deriving DecidableEq, Repr

/-- A sample is a pair of barcodes, from the Rust `struct Sample`. -/
structure Sample where
  barcode1 : List Char
  barcode2 : List Char
deriving DecidableEq, Repr

/-- A FASTQ record, reduced to the two fields the pipeline reads:
the identifier and the sequence (`rec.id()` and `rec.seq()`). -/
structure Record where
  id : List Char
  seq : List Char
deriving DecidableEq, Repr

/-- Configuration bundle, from the Rust `struct Config`. -/
structure Config where
  barcodes1 : List (List Char)
  barcodes2 : List (List Char)
  const_region : List Char
  window : Nat × Nat
  rbs_len : Nat
  barcode_len : Nat
  max_n : Nat
  non_flipped : List Char
  flipped : List Char
  disc_offset : Nat

-- ==========================================================
-- Constants (from constants.rs)
-- ==========================================================

def MAX_N_COUNT : Nat := 6

def BARCODES_1 : List (List Char) :=
  ["ATCACG".toList, "CGATGT".toList, "CTTGTA".toList,
   "GCCAAT".toList, "ACAGTG".toList, "ACTTGA".toList]

def BARCODES_2 : List (List Char) :=
  ["ATCACG".toList, "CGATGT".toList, "CTTGTA".toList,
   "GCCAAT".toList, "ACAGTG".toList, "ACTTGA".toList]

def BARCODE_LEN : Nat := 6

def CONSTANT_REGION : List Char := "GAGCTCGCAT".toList

def CONSTANT_REGION_WINDOW : Nat × Nat := (7, 24)

def NON_FLIPPED_SEQ : List Char := "GGGTTTGTACCGTACAC".toList

def FLIPPED_SEQ : List Char := "GCCCGGATGATCCTGAC".toList

def DISCRIMINATOR_OFFSET : Nat := 6

def RBS_LEN : Nat := 17

/-- The configuration `process_fastq` builds from the constants module. -/
def fixedCfg : Config where
  barcodes1 := BARCODES_1
  barcodes2 := BARCODES_2
  const_region := CONSTANT_REGION
  window := CONSTANT_REGION_WINDOW
  rbs_len := RBS_LEN
  barcode_len := BARCODE_LEN
  max_n := MAX_N_COUNT
  non_flipped := NON_FLIPPED_SEQ
  flipped := FLIPPED_SEQ
  disc_offset := DISCRIMINATOR_OFFSET

-- ==========================================================
-- String helpers (Rust slicing and substring search)
-- ==========================================================

/-- Model of the Rust slice `&s[a..b]`: defined when `a ≤ b ≤ s.len()`,
and a panic (`none`) otherwise. -/
def sliceRust (s : List Char) (a b : Nat) : Option (List Char) :=
  if a ≤ b ∧ b ≤ s.length then some ((s.drop a).take (b - a)) else none

/-- Model of Rust `haystack.find(needle)`: index of the first occurrence of
`needle` as a contiguous sub-sequence of `haystack`, if any. -/
def findSub (hay pat : List Char) : Option Nat :=
  (List.range (hay.length + 1)).find? (fun i => pat.isPrefixOf (hay.drop i))

/-- Count of ambiguous base calls, `seq.bytes().filter(|&b| b == b'N').count()`. -/
def nCount (s : List Char) : Nat :=
  (s.filter (fun c => c = 'N')).length

-- ==========================================================
-- Classifier (fastq.rs, classify_pair)
-- ==========================================================

/-- Step 6 of `classify_pair`: the match on
`(seq1.find(cfg.non_flipped), seq1.find(cfg.flipped))`, yielding the
discriminator position and orientation, or `DiscSeq`. -/
def discStep (cfg : Config) (seq1 : List Char) : Except FailReason (Nat × Flip) :=
  match findSub seq1 cfg.non_flipped, findSub seq1 cfg.flipped with
  | some p, _ => Except.ok (p, Flip.NonFlipped)
  | none, some p => Except.ok (p, Flip.Flipped)
  | none, none => Except.error FailReason.DiscSeq

/-- Model of the Rust `classify_pair`.  `none` models a panic: a record
identifier mismatch (`validate_pairs`) or an out-of-bounds string slice.
The numbered steps follow the numbered sections of the Rust source; the
source's local bindings are inlined (`seq1 = rec1.seq`, `seq2 = rec2.seq`,
`const_offset = localPos + window.0 - 1`,
`rbs_start = const_offset + const_region.len()`,
`barcode1_start = disc_pos - disc_offset - barcode_len`). -/
def classify_pair (cfg : Config) (rec1 rec2 : Record) :
    Option (Except FailReason (Sample × List Char × Flip)) :=
  if rec1.id ≠ rec2.id then none
  else
    -- 1. Fast rejection for base call
    if nCount rec1.seq + nCount rec2.seq > cfg.max_n then
      some (Except.error FailReason.BaseCalls)
    else
      -- 2. Reject when missing constant region
      match sliceRust rec2.seq (cfg.window.1 - 1) cfg.window.2 with
      | none => none
      | some window =>
        match findSub window cfg.const_region with
        | none => some (Except.error FailReason.ConstantSeq)
        | some localPos =>
          -- 3. Reject when constant region is too skewed
          if localPos + cfg.window.1 - 1 < cfg.barcode_len ∨
              localPos + cfg.window.1 - 1 + cfg.barcode_len + cfg.rbs_len >
                rec2.seq.length then
            some (Except.error FailReason.ConstantPos)
          else
            -- 4. Extract RBS
            match sliceRust rec2.seq
                (localPos + cfg.window.1 - 1 + cfg.const_region.length)
                (localPos + cfg.window.1 - 1 + cfg.const_region.length + cfg.rbs_len) with
            | none => none
            | some rbs =>
              -- 5. Extract barcode 2
              match sliceRust rec2.seq
                  (localPos + cfg.window.1 - 1 - cfg.barcode_len)
                  (localPos + cfg.window.1 - 1) with
              | none => none
              | some barcode2 =>
                if ¬ cfg.barcodes2.contains barcode2 then
                  some (Except.error FailReason.Barcode2)
                else
                  -- 6. Extract discriminator
                  match discStep cfg rec1.seq with
                  | Except.error r => some (Except.error r)
                  | Except.ok (disc_pos, flipped) =>
                    if disc_pos < cfg.disc_offset + cfg.barcode_len then
                      some (Except.error FailReason.DiscPos)
                    else
                      -- 6'. Extract barcode 1
                      match sliceRust rec1.seq
                          (disc_pos - cfg.disc_offset - cfg.barcode_len)
                          (disc_pos - cfg.disc_offset - cfg.barcode_len + cfg.barcode_len) with
                      | none => none
                      | some barcode1 =>
                        if ¬ cfg.barcodes1.contains barcode1 then
                          some (Except.error FailReason.Barcode1)
                        else
                          some (Except.ok
                            (⟨barcode1, barcode2⟩, rbs, flipped))

instance : DecidableEq (Except FailReason (Sample × List Char × Flip)) := fun a b =>
  match a, b with
  | Except.ok x, Except.ok y =>
    if h : x = y then isTrue (by rw [h]) else isFalse (by intro hc; cases hc; exact h rfl)
  | Except.error x, Except.error y =>
    if h : x = y then isTrue (by rw [h]) else isFalse (by intro hc; cases hc; exact h rfl)
  | Except.ok _, Except.error _ => isFalse (by intro hc; cases hc)
  | Except.error _, Except.ok _ => isFalse (by intro hc; cases hc)

-- ==========================================================
-- Counters (fastq.rs, struct Counters)
-- ==========================================================

/-- Discriminant of a `FailReason`, the index into the Rust
`fails: [AtomicU64; FailReason::COUNT]` array. -/
def failIdx : FailReason → Fin 7
  | FailReason.BaseCalls => 0
  | FailReason.ConstantSeq => 1
  | FailReason.ConstantPos => 2
  | FailReason.Barcode1 => 3
  | FailReason.Barcode2 => 4
  | FailReason.DiscSeq => 5
  | FailReason.DiscPos => 6

/-- The Rust `struct Counters`: `total`, `valid` and one cell per failure
reason.  Atomics are modelled as plain naturals; the parallel chunk loop is
sequentialised (each pair performs its increments atomically, and the final
value of a chunk does not depend on the interleaving because every update is
a commuting increment). -/
structure Counters where
  total : Nat
  valid : Nat
  fails : Fin 7 → Nat
deriving DecidableEq

/-- Counters at process start (`Counters::default()`). -/
def zeroCounters : Counters := ⟨0, 0, fun _ => 0⟩

/-- Model of `Counters::inc_fail`. -/
def incFail (c : Counters) (r : FailReason) : Counters :=
  { c with fails := Function.update c.fails (failIdx r) (c.fails (failIdx r) + 1) }

/-- Sum of the seven failure counters. -/
def sumFails (c : Counters) : Nat := ∑ i : Fin 7, c.fails i

-- ==========================================================
-- Chunk-scoped sample table (fastq.rs, SampleTable)
-- ==========================================================

/-- Key of one output row: `(barcode1, barcode2, gre)` where `gre` is the
RBS column name used by `table_to_dataframe`. -/
abbrev BKey := List Char × List Char × List Char

/-- One row of a chunk's exported table:
`(barcode1, barcode2, gre, unflipped, flipped)`. -/
abbrev Row := BKey × Nat × Nat

/-- A chunk's table, as the list of rows `table_to_dataframe` exports.
The `DashMap` iteration order is unspecified; this model fixes
first-insertion order, which is sound for every property proved below
because the merge stage's group-and-sum is insensitive to row order. -/
abbrev Table := List Row

/-- Atomic increment of one slot of a count cell (`cell[idx].fetch_add(1)`). -/
def bumpCell (c : Nat × Nat) (f : Flip) : Nat × Nat :=
  match f with
  | Flip.NonFlipped => (c.1 + 1, c.2)
  | Flip.Flipped => (c.1, c.2 + 1)

/-- Model of `table.entry(sample).or_insert(..).entry(rbs).or_insert(..)`
followed by the atomic increment: bump the cell of key `k`, creating it
with a zero cell first if absent. -/
def insertTable : Table → BKey → Flip → Table
  | [], k, f => [(k, bumpCell (0, 0) f)]
  | r :: rest, k, f =>
    if r.1 = k then (r.1, bumpCell r.2 f) :: rest else r :: insertTable rest k f

/-- Per-key column sums of a list of rows: the `(unflipped, flipped)` totals
of all rows carrying key `k`.  This is the semantics of the merge stage's
`group_by([barcode1, barcode2, gre]).agg([sum, sum])` at one key. -/
def rowsSum (rows : Table) (k : BKey) : Nat × Nat :=
  (((rows.filter (fun r => r.1 = k)).map (fun r => r.2.1)).sum,
   ((rows.filter (fun r => r.1 = k)).map (fun r => r.2.2)).sum)

-- ==========================================================
-- Chunk processing (fastq.rs, process_fastq loop body)
-- ==========================================================

/-- Work done for one zipped pair inside the `par_iter().for_each` closure:
increment `total`, classify, then either increment `valid` and bump the
sample table, or increment the failure counter.  `none` models the panics
(`Problem in pairs`, identifier mismatch, slice panics). -/
def processPair (cfg : Config) (st : Counters × Table) (pr : Record × Record) :
    Option (Counters × Table) :=
  let c := { st.1 with total := st.1.total + 1 }
  match classify_pair cfg pr.1 pr.2 with
  | none => none
  | some (Except.ok (s, rbs, f)) =>
    some ({ c with valid := c.valid + 1 },
      insertTable st.2 (s.barcode1, s.barcode2, rbs) f)
  | some (Except.error r) => some (incFail c r, st.2)

/-- Sequentialisation of one chunk's parallel fork-join: fold `processPair`
over the zipped pairs of the chunk. -/
def processChunk (cfg : Config) :
    Counters × Table → List (Record × Record) → Option (Counters × Table)
  | st, [] => some st
  | st, pr :: rest =>
    match processPair cfg st pr with
    | none => none
    | some st' => processChunk cfg st' rest

/-- Model of the chunked streaming loop of `process_fastq`: repeatedly take
up to `chunkSize` records from each stream, stop as soon as either chunk is
empty, otherwise zip the two chunks positionally (rayon's `zip` truncates to
the shorter side), process the pairs against a fresh table, export the
chunk's table, and continue on the remainders.  Returns the list of exported
chunk tables and the final counters, or `none` if any pair panicked. -/
def runLoop (cfg : Config) (chunkSize : Nat) (c : Counters) (s1 s2 : List Record) :
    Option (List Table × Counters) :=
  if h : ((s1.take chunkSize).isEmpty || (s2.take chunkSize).isEmpty) = true then
    some ([], c)
  else
    match processChunk cfg (c, []) ((s1.take chunkSize).zip (s2.take chunkSize)) with
    | none => none
    | some (c', table) =>
      match runLoop cfg chunkSize c' (s1.drop chunkSize) (s2.drop chunkSize) with
      | none => none
      | some (tables, cf) => some (table :: tables, cf)
termination_by s1.length
decreasing_by
  simp only [Bool.or_eq_true, List.isEmpty_iff, not_or] at h
  have h1 : s1 ≠ [] := by
    intro he
    exact h.1 (by simp [he])
  have h2 : chunkSize ≠ 0 := by
    intro he
    exact h.1 (by simp [he])
  simpa using Nat.sub_lt (List.length_pos.2 h1) (Nat.pos_of_ne_zero h2)

-- ==========================================================
-- Merge stage (fastq.rs, concat_parquet_dir)
-- ==========================================================

/-- Model of `concat_parquet_dir`: panic (`none`) when there is no chunk
file, otherwise concatenate all chunk tables' rows and group by
`(barcode1, barcode2, gre)`, summing the `unflipped`/`flipped` columns:
one output row per distinct key, carrying the column sums. -/
def concat_parquet_dir (tables : List Table) : Option Table :=
  if tables.isEmpty then none
  else
    some (((tables.flatten.map (fun r => r.1)).dedup).map
      (fun k => (k, rowsSum tables.flatten k)))

-- ==========================================================
-- Spec-side reference aggregate (for the refinement claim)
-- ==========================================================

/-- Successful classification outcome of one read pair, as a
`(key, orientation)` event; `none` for failures and panics. -/
def validOutcome (cfg : Config) (pr : Record × Record) : Option (BKey × Flip) :=
  match classify_pair cfg pr.1 pr.2 with
  | some (Except.ok (s, rbs, f)) => some ((s.barcode1, s.barcode2, rbs), f)
  | _ => none

/-- Spec-side definition, following the spec's words: the per-key counts a
single, unchunked, fully-sequential pass over the given read pairs would
produce — the number of valid pairs mapping to key `k` in each
orientation. -/
def specSequentialAggregate (cfg : Config) (pairs : List (Record × Record))
    (k : BKey) : Nat × Nat :=
  ((pairs.filterMap (validOutcome cfg)).count (k, Flip.NonFlipped),
   (pairs.filterMap (validOutcome cfg)).count (k, Flip.Flipped))

-- ==========================================================
-- Partition stage (fastq.rs, save_by_chunks / write_partitioned_parquet)
-- ==========================================================

/-- Model of `save_by_chunks`: split `rows` into `⌈n/chunk_size⌉` slices of
at most `chunk_size` rows, one numbered output file per slice (file `i`
holds `rows.slice(i*chunk_size, min(chunk_size, n - i*chunk_size))`).
`none` models the Rust division-by-zero panic when `chunk_size == 0`. -/
def save_by_chunks (rows : Table) (chunk_size : Nat) : Option (List Table) :=
  if chunk_size = 0 then none
  else
    let n_rows := rows.length
    let n_chunks := (n_rows + chunk_size - 1) / chunk_size
    some ((List.range n_chunks).map (fun i =>
      (rows.drop (i * chunk_size)).take (min chunk_size (n_rows - i * chunk_size))))

/-- Row filter of `write_partitioned_parquet`:
`col(barcode1).eq(lit(b1)).and(col(barcode2).eq(lit(b2)))`. -/
def matchesPair (b1 b2 : List Char) (r : Row) : Bool :=
  decide (r.1.1 = b1 ∧ r.1.2.1 = b2)

/-- The nested `for b1 { for b2 { .. } }` body of `write_partitioned_parquet`
over an explicit list of candidate barcode pairs: filter the merged table to
the pair, skip it when no row matches, otherwise write its size-bounded
files via `save_by_chunks`. -/
def partitionPairsLoop (df : Table) (parquet_size : Nat) :
    List (List Char × List Char) →
    Option (List ((List Char × List Char) × List Table))
  | [] => some []
  | (b1, b2) :: rest =>
    let filtered := df.filter (matchesPair b1 b2)
    if filtered.isEmpty then partitionPairsLoop df parquet_size rest
    else
      match save_by_chunks filtered parquet_size,
          partitionPairsLoop df parquet_size rest with
      | some files, some out => some (((b1, b2), files) :: out)
      | _, _ => none

/-- Model of `write_partitioned_parquet`: enumerate the distinct values of
the `barcode1` and `barcode2` columns, and run the nested partition loop
over their product.  The result maps each written barcode pair to the list
of files (each a list of rows) written to its directory. -/
def write_partitioned_parquet (df : Table) (parquet_size : Nat) :
    Option (List ((List Char × List Char) × List Table)) :=
  let b1s := (df.map (fun r => r.1.1)).dedup
  let b2s := (df.map (fun r => r.1.2.1)).dedup
  partitionPairsLoop df parquet_size (b1s.flatMap (fun b1 => b2s.map (fun b2 => (b1, b2))))

-- ==========================================================
-- Output paths (fastq.rs, prepare_dirs / write_qc_parquet / process_fastq)
-- ==========================================================

/-- `PathBuf::join` with a Unix separator. -/
def joinPath (a b : String) : String := a ++ "/" ++ b

/-- The `qc` directory of `prepare_dirs`: `<output_dir>/data/qc`. -/
def qcDir (output_dir : String) : String := joinPath (joinPath output_dir "data") "qc"

/-- The `counts` directory of `prepare_dirs`: `<output_dir>/data/counts`. -/
def countsDir (output_dir : String) : String :=
  joinPath (joinPath output_dir "data") "counts"

/-- Path written by `write_qc_parquet(df, output_root, sample)`:
`<output_root>/sample=<sample>/part-0.parquet`. -/
def write_qc_parquet_path (output_root sample : String) : String :=
  joinPath (joinPath output_root ("sample=" ++ sample)) "part-0.parquet"

/-- The QC file path `process_fastq` produces: the source passes the string
literal `"sample_name"` to `write_qc_parquet`, not the `sample_name`
argument. -/
def process_fastq_qc_path (output_dir sample_name : String) : String :=
  write_qc_parquet_path (qcDir output_dir) "sample_name"

/-- The per-sample counts directory `process_fastq` produces: here the
caller-supplied `sample_name` argument is used
(`output_root.join(format!("sample={}", sample_name))`). -/
def process_fastq_counts_sample_dir (output_dir sample_name : String) : String :=
  joinPath (countsDir output_dir) ("sample=" ++ sample_name)

-- ==========================================================
-- Fuel-indexed twin of the loop, for evaluation on concrete inputs
-- ==========================================================

/-- Fuel-indexed equivalent of `runLoop`; `runLoopAux_eq` below shows it
agrees with `runLoop` whenever the fuel is at least the length of the first
stream, which lets concrete runs be evaluated by `decide`. -/
def runLoopAux (cfg : Config) (chunkSize : Nat) :
    Nat → Counters → List Record → List Record → Option (List Table × Counters)
  | 0, c, _, _ => some ([], c)
  | fuel + 1, c, s1, s2 =>
    if ((s1.take chunkSize).isEmpty || (s2.take chunkSize).isEmpty) = true then
      some ([], c)
    else
      match processChunk cfg (c, []) ((s1.take chunkSize).zip (s2.take chunkSize)) with
      | none => none
      | some (c', table) =>
        match runLoopAux cfg chunkSize fuel c' (s1.drop chunkSize) (s2.drop chunkSize) with
        | none => none
        | some (tables, cf) => some (table :: tables, cf)

-- ==========================================================
-- Concrete test fixtures used by witnesses and counterexamples
-- ==========================================================

/-- Sequence 1 of a fully valid read pair: barcode1 `CGATGT`, six filler
bases, then the non-flipped discriminator at offset 12. -/
def validSeq1 : List Char := ("CGATGT" ++ "TTTTTT" ++ "GGGTTTGTACCGTACAC").toList

/-- Sequence 2 of a fully valid read pair: barcode2 `ATCACG`, the anchor at
offset 6, then a 17-base RBS; total length 33. -/
def validSeq2 : List Char := ("ATCACG" ++ "GAGCTCGCAT" ++ "AAAAAAAAAAAAAAAAA").toList

def validRec1 : Record := ⟨"r1".toList, validSeq1⟩

def validRec2 : Record := ⟨"r1".toList, validSeq2⟩

/-- A sequence 2 of length 29 with the anchor at offset 6: it passes the
anchor-position check (6 + 6 + 17 = 29 ≤ 29) but the RBS slice reaches
byte 33 > 29. -/
def oobSeq2 : List Char := ("AAAAAA" ++ "GAGCTCGCAT" ++ "AAAAAAAAAAAAA").toList

/-- A sequence 2 of length 25 whose only anchor occurrence starts at offset
5 = barcode_len - 1, outside the search window that begins at offset 6. -/
def c5Seq2 : List Char := ("AAAAA" ++ "GAGCTCGCAT" ++ "AAAAAAAAAA").toList

/-- A sequence containing both discriminator motifs. -/
def bothMotifs : List Char := ("GGGTTTGTACCGTACAC" ++ "GCCCGGATGATCCTGAC").toList

/-- A sequence containing neither discriminator motif. -/
def noMotifs : List Char := "AAAA".toList

/-- A 25-base sequence with no anchor: long enough for the window slice,
classified `ConstantSeq`. -/
def plainSeq : List Char := "AAAAAAAAAAAAAAAAAAAAAAAAA".toList

/-- Key of the valid fixture pair. -/
def KW : BKey := ("CGATGT".toList, "ATCACG".toList, "AAAAAAAAAAAAAAAAA".toList)

/-- Chunk table produced by one valid fixture pair. -/
def tW : Table := [(KW, (1, 0))]

/-- Counters after two valid fixture pairs. -/
def cW : Counters := ⟨2, 2, fun _ => 0⟩

/-- Merged table of two chunks of one valid fixture pair each. -/
def mergedW : Table := [(KW, (2, 0))]


/-- C10: for every invocation of `process_fastq`, the QC summary is written
under `data/qc/sample=sample_name` using the literal string `sample_name`
(the source passes the literal, not the argument), while the counts
partitions use the caller-supplied sample name. -/
theorem qc_path_ignores_sample_argument (out s : String) :
    process_fastq_qc_path out s = out ++ "/data/qc/sample=sample_name/part-0.parquet" ∧
    process_fastq_counts_sample_dir out s = out ++ "/data/counts/sample=" ++ s := by
  constructor
  · show out ++ "/" ++ "data" ++ "/" ++ "qc" ++ "/" ++ ("sample=" ++ "sample_name") ++ "/" ++ "part-0.parquet" = _
    simp only [String.append_assoc]
    congr 1
  · show out ++ "/" ++ "data" ++ "/" ++ "counts" ++ "/" ++ ("sample=" ++ s) = _
    simp only [String.append_assoc]
    congr 1

/-- C9: for any read pair with matching identifiers and at most the
configured maximum of ambiguous bases, if `sequence2` is shorter than 24
(the upper bound of the configured anchor window) then `classify_pair`
panics on the window slice of `sequence2` (modelled as `none`) instead of
returning a classification failure reason. -/
theorem classify_short_seq2_panics (r1 r2 : Record) (hid : r1.id = r2.id)
    (hn : nCount r1.seq + nCount r2.seq ≤ fixedCfg.max_n)
    (hlen : r2.seq.length < 24) :
    classify_pair fixedCfg r1 r2 = none := by
  have h6 : ¬ (nCount r1.seq + nCount r2.seq > fixedCfg.max_n) := by omega
  have hs : sliceRust r2.seq (fixedCfg.window.1 - 1) fixedCfg.window.2 = none := by
    simp only [sliceRust, fixedCfg, CONSTANT_REGION_WINDOW]
    rw [if_neg]
    omega
  simp [classify_pair, hid, h6, hs]

/-- Witness for C9 at a concrete pair whose `sequence2` has 10 bases. -/
theorem classify_short_seq2_panics_witness :
    classify_pair fixedCfg ⟨"r".toList, "ACGT".toList⟩ ⟨"r".toList, "ACGTACGTAC".toList⟩ = none :=
  classify_short_seq2_panics _ _ rfl (by decide) (by decide)

/-- Characterisation of the error case of `discStep`: the only failure it
produces is `DiscSeq`, when neither motif occurs. -/
theorem discStep_error_iff (cfg : Config) (s : List Char) (r : FailReason) :
    discStep cfg s = Except.error r ↔
      (findSub s cfg.non_flipped = none ∧ findSub s cfg.flipped = none ∧
        r = FailReason.DiscSeq) := by
  unfold discStep
  split <;> simp_all
  exact eq_comm

-- helper: BaseCalls only from step 1
theorem base_calls_only_step1 (cfg : Config) (r1 r2 : Record)
    (h : classify_pair cfg r1 r2 = some (Except.error FailReason.BaseCalls)) :
    nCount r1.seq + nCount r2.seq > cfg.max_n := by
  unfold classify_pair at h
  split at h
  · simp at h
  · split at h
    · assumption
    · exfalso
      repeat' split at h
      all_goals simp_all [discStep_error_iff]

/-- C6: a combined count of N bases across both sequences equal to the
configured maximum is not rejected for base calls, while a count exceeding
the maximum yields `BaseCalls`; the check is the first one, so the
`BaseCalls` outcome holds no matter what the rest of the pair looks like. -/
theorem base_calls_boundary (r1 r2 : Record) :
    (nCount r1.seq + nCount r2.seq = fixedCfg.max_n →
      classify_pair fixedCfg r1 r2 ≠ some (Except.error FailReason.BaseCalls)) ∧
    (r1.id = r2.id → nCount r1.seq + nCount r2.seq > fixedCfg.max_n →
      classify_pair fixedCfg r1 r2 = some (Except.error FailReason.BaseCalls)) := by
  constructor
  · intro he hc
    have := base_calls_only_step1 _ _ _ hc
    omega
  · intro hid hgt
    simp [classify_pair, hid, hgt]

/-- Witness for C6: a pair with exactly 6 ambiguous bases is not rejected
for base calls; one with 7 is. -/
theorem base_calls_boundary_witness :
    classify_pair fixedCfg ⟨"r".toList, "NNNNNN".toList⟩ ⟨"r".toList, "ACGT".toList⟩ ≠
      some (Except.error FailReason.BaseCalls) ∧
    classify_pair fixedCfg ⟨"r".toList, "NNNNNNN".toList⟩ ⟨"r".toList, "ACGT".toList⟩ =
      some (Except.error FailReason.BaseCalls) :=
  ⟨(base_calls_boundary _ _).1 (by decide),
   (base_calls_boundary _ _).2 rfl (by decide)⟩

-- ---------- C7 ----------

/-- C7: when both discriminator motifs occur in `sequence1` the classifier
records orientation `NonFlipped` using the non-flipped motif's position;
the flipped motif's position is used only when the non-flipped motif is
absent; and when neither occurs the discriminator step yields `DiscSeq`, so
the classifier can neither succeed nor report any later failure reason. -/
theorem disc_priority (cfg : Config) (s : List Char) (r1 r2 : Record) :
    (∀ p q, findSub s cfg.non_flipped = some p → findSub s cfg.flipped = some q →
      discStep cfg s = Except.ok (p, Flip.NonFlipped)) ∧
    (∀ q, findSub s cfg.non_flipped = none → findSub s cfg.flipped = some q →
      discStep cfg s = Except.ok (q, Flip.Flipped)) ∧
    (findSub s cfg.non_flipped = none → findSub s cfg.flipped = none →
      discStep cfg s = Except.error FailReason.DiscSeq) ∧
    (findSub r1.seq cfg.non_flipped = none → findSub r1.seq cfg.flipped = none →
      (∀ v, classify_pair cfg r1 r2 ≠ some (Except.ok v)) ∧
      classify_pair cfg r1 r2 ≠ some (Except.error FailReason.DiscPos) ∧
      classify_pair cfg r1 r2 ≠ some (Except.error FailReason.Barcode1)) := by
  refine ⟨?_, ?_, ?_, ?_⟩
  · intro p q hp hq
    unfold discStep
    rw [hp]
  · intro q hp hq
    unfold discStep
    rw [hp, hq]
  · intro hp hq
    unfold discStep
    rw [hp, hq]
  · intro hnf hfl
    have hd : discStep cfg r1.seq = Except.error FailReason.DiscSeq := by
      rw [discStep_error_iff]
      exact ⟨hnf, hfl, rfl⟩
    refine ⟨?_, ?_, ?_⟩ <;>
      · first
        | (intro v hv
           unfold classify_pair at hv
           repeat' split at hv
           all_goals simp_all)
        | (intro hv
           unfold classify_pair at hv
           repeat' split at hv
           all_goals simp_all)


/-- Witness for C7 on concrete sequences containing both motifs and
neither motif. -/
theorem disc_priority_witness :
    discStep fixedCfg bothMotifs = Except.ok (0, Flip.NonFlipped) ∧
    discStep fixedCfg noMotifs = Except.error FailReason.DiscSeq :=
  ⟨(disc_priority fixedCfg bothMotifs ⟨[], []⟩ ⟨[], []⟩).1 0 17 (by decide) (by decide),
   (disc_priority fixedCfg noMotifs ⟨[], []⟩ ⟨[], []⟩).2.2.1 (by decide) (by decide)⟩

-- ---------- C3 counterexample and amended ----------

/-- C3 (failing input): a read pair whose anchor is found at offset 6 of a
29-base `sequence2` passes the anchor-position check
(6 ≥ barcode_len and 6 + barcode_len + rbs_len = 29 ≤ 29), yet
`classify_pair` panics (`none`): the RBS slice starts at
6 + const_region.length = 16 and reaches byte 33 > 29, because the check
bounds the region with `barcode_len` = 6 while the extraction skips the
10-byte constant region. -/
theorem rbs_oob_counterexample :
    (¬ (6 < fixedCfg.barcode_len ∨
        6 + fixedCfg.barcode_len + fixedCfg.rbs_len > oobSeq2.length)) ∧
    sliceRust oobSeq2 (fixedCfg.window.1 - 1) fixedCfg.window.2 =
      some ("GAGCTCGCATAAAAAAAA".toList) ∧
    findSub ("GAGCTCGCATAAAAAAAA".toList) fixedCfg.const_region = some 0 ∧
    classify_pair fixedCfg ⟨"r1".toList, validSeq1⟩ ⟨"r1".toList, oobSeq2⟩ = none := by
  decide

/-- Context for C3: the anchor-position check would keep the RBS
extraction in bounds if the constant region were no longer than a barcode;
for the program's constants this hypothesis fails (10 > 6). -/
theorem rbs_in_bounds_amended (cfg : Config) (seq2 : List Char) (off : Nat)
    (hcr : cfg.const_region.length ≤ cfg.barcode_len)
    (hpos : ¬ (off < cfg.barcode_len ∨
        off + cfg.barcode_len + cfg.rbs_len > seq2.length)) :
    sliceRust seq2 (off + cfg.const_region.length)
      (off + cfg.const_region.length + cfg.rbs_len) ≠ none := by
  rcases not_or.1 hpos with ⟨h1, h2⟩
  simp only [sliceRust]
  rw [if_pos ⟨by omega, by omega⟩]
  simp

/-- Concrete instance of the previous lemma with a 6-byte constant
region. -/
theorem rbs_in_bounds_amended_witness :
    sliceRust ("AAAAAAAAAAAAAAAAAAAAAAAAAAAAA".toList) (6 + 6) (6 + 6 + 17) ≠ none := by
  have h := rbs_in_bounds_amended
    { fixedCfg with const_region := "GAGCTC".toList }
    ("AAAAAAAAAAAAAAAAAAAAAAAAAAAAA".toList) 6 (by decide) (by decide)
  simpa using h

-- ---------- C5 counterexample and amended ----------

/-- C5 counterexample: an otherwise valid read pair whose anchor motif
starts at offset barcode_len - 1 = 5 (and nowhere in the search window) is
rejected with `ConstantSeq`, not `ConstantPos`: the window begins at offset
6, so an anchor at offset 5 is simply never found. -/
theorem anchor_offset5_counterexample :
    List.isPrefixOf fixedCfg.const_region (c5Seq2.drop (fixedCfg.barcode_len - 1)) = true ∧
    classify_pair fixedCfg ⟨"r1".toList, validSeq1⟩ ⟨"r1".toList, c5Seq2⟩ =
      some (Except.error FailReason.ConstantSeq) := by
  decide

/-- C5 amended: a pair whose anchor is found at exactly offset
barcode_len = 6 (window find at local position 0) is never rejected by the
position check when `sequence2` has at least 29 bases; a pair whose anchor
is absent from the search window — in particular one whose only occurrence
starts at offset barcode_len - 1 — is rejected with `ConstantSeq`. -/
theorem anchor_boundary_amended (r1 r2 : Record) :
    (∀ w, sliceRust r2.seq (fixedCfg.window.1 - 1) fixedCfg.window.2 = some w →
      findSub w fixedCfg.const_region = some 0 → 29 ≤ r2.seq.length →
      classify_pair fixedCfg r1 r2 ≠ some (Except.error FailReason.ConstantPos)) ∧
    (∀ w, r1.id = r2.id → nCount r1.seq + nCount r2.seq ≤ fixedCfg.max_n →
      sliceRust r2.seq (fixedCfg.window.1 - 1) fixedCfg.window.2 = some w →
      findSub w fixedCfg.const_region = none →
      classify_pair fixedCfg r1 r2 = some (Except.error FailReason.ConstantSeq)) := by
  constructor
  · intro w hslice hfind hlen hv
    unfold classify_pair at hv
    repeat' split at hv
    all_goals simp_all [discStep_error_iff, fixedCfg, CONSTANT_REGION_WINDOW, BARCODE_LEN,
      RBS_LEN, MAX_N_COUNT]
    omega
  · intro w hid hn hslice hfind
    have h6 : ¬ (nCount r1.seq + nCount r2.seq > fixedCfg.max_n) := by omega
    simp [classify_pair, hid, h6, hslice, hfind]

/-- Witness for C5 amended at the valid fixture pair and the offset-5
fixture. -/
theorem anchor_boundary_amended_witness :
    classify_pair fixedCfg validRec1 validRec2 ≠
      some (Except.error FailReason.ConstantPos) ∧
    classify_pair fixedCfg validRec1 ⟨"r1".toList, c5Seq2⟩ =
      some (Except.error FailReason.ConstantSeq) :=
  ⟨(anchor_boundary_amended validRec1 validRec2).1 ("GAGCTCGCATAAAAAAAA".toList)
      (by decide) (by decide) (by decide),
   (anchor_boundary_amended validRec1 ⟨"r1".toList, c5Seq2⟩).2 ("AGCTCGCATAAAAAAAAA".toList)
      rfl (by decide) (by decide) (by decide)⟩


theorem runLoopAux_eq (cfg : Config) (chunkSize : Nat) :
    ∀ (fuel : Nat) (c : Counters) (s1 s2 : List Record), s1.length ≤ fuel →
      runLoopAux cfg chunkSize fuel c s1 s2 = runLoop cfg chunkSize c s1 s2 := by
  intro fuel
  induction fuel with
  | zero =>
    intro c s1 s2 h
    have hs : s1 = [] := List.eq_nil_of_length_eq_zero (Nat.le_zero.1 h)
    subst hs
    rw [runLoop]
    simp [runLoopAux]
  | succ fuel ih =>
    intro c s1 s2 h
    rw [runLoop]
    by_cases hc : (((s1.take chunkSize).isEmpty || (s2.take chunkSize).isEmpty) = true)
    · simp [runLoopAux, hc]
    · simp only [runLoopAux, hc, if_false, dif_neg, not_false_iff]
      cases hp : processChunk cfg (c, []) ((s1.take chunkSize).zip (s2.take chunkSize)) with
      | none => rfl
      | some st =>
        obtain ⟨c1, t1⟩ := st
        have hn1 : s1 ≠ [] := by
          intro he
          apply hc
          simp [he]
        have hk1 : chunkSize ≠ 0 := by
          intro he
          apply hc
          simp [he]
        have hd : (s1.drop chunkSize).length ≤ fuel := by
          have h1 := List.length_pos.2 hn1
          rw [List.length_drop]
          omega
        simp [ih c1 (s1.drop chunkSize) (s2.drop chunkSize) hd]

-- ---------- C4 ----------


/-- C4 (failing input): with chunk size 2, a first stream holding two
records and a second stream holding one, the loop terminates normally
(`some`) with `total = 1`: the surplus record of stream 1 is silently
dropped (rayon `zip` truncates to the shorter chunk, and an empty chunk on
either side merely ends the loop), and no fatal error is raised. -/
theorem stream_exhaustion_silently_truncates :
    ∃ out, runLoop fixedCfg 2 zeroCounters
        [⟨"p1".toList, "AAAA".toList⟩, ⟨"p2".toList, "AAAA".toList⟩]
        [⟨"p1".toList, plainSeq⟩] = some out ∧
      out.2.total = 1 := by
  refine ⟨(([[]] : List Table), incFail ⟨1, 0, fun _ => 0⟩ FailReason.ConstantSeq), ?_, ?_⟩
  · rw [← runLoopAux_eq fixedCfg 2 2 zeroCounters _ _ (by decide)]
    decide
  · decide


-- ---------- C2 ----------

theorem sumFails_incFail (c : Counters) (r : FailReason) :
    sumFails (incFail c r) = sumFails c + 1 := by
  unfold sumFails incFail
  rw [Finset.sum_update_of_mem (Finset.mem_univ _), Finset.sdiff_singleton_eq_erase,
    ← Finset.sum_erase_add Finset.univ _ (Finset.mem_univ (failIdx r))]
  omega

theorem processPair_counters (cfg : Config) (st : Counters × Table)
    (pr : Record × Record) (st' : Counters × Table)
    (h : processPair cfg st pr = some st') :
    st'.1.total = st.1.total + 1 ∧
    st'.1.valid + sumFails st'.1 = st.1.valid + sumFails st.1 + 1 := by
  rcases hc : classify_pair cfg pr.1 pr.2 with _ | res
  · simp only [processPair, hc] at h
    exact Option.noConfusion h
  · rcases res with r | ⟨s, rbs, f⟩
    · simp only [processPair, hc] at h
      injection h with h1
      subst h1
      refine ⟨rfl, ?_⟩
      show st.1.valid + sumFails (incFail { st.1 with total := st.1.total + 1 } r) = _
      rw [sumFails_incFail]
      show st.1.valid + (sumFails st.1 + 1) = _
      omega
    · simp only [processPair, hc] at h
      injection h with h1
      subst h1
      refine ⟨rfl, ?_⟩
      show st.1.valid + 1 + sumFails st.1 = _
      omega

theorem processChunk_cons_eq (cfg : Config) (st : Counters × Table)
    (pr : Record × Record) (rest : List (Record × Record)) :
    processChunk cfg st (pr :: rest) =
      (processPair cfg st pr).bind (fun st1 => processChunk cfg st1 rest) := by
  cases hp : processPair cfg st pr <;> simp [processChunk, hp]

theorem processChunk_counters (cfg : Config) :
    ∀ (prs : List (Record × Record)) (st st' : Counters × Table),
      processChunk cfg st prs = some st' →
      st'.1.valid + sumFails st'.1 + st.1.total =
        st.1.valid + sumFails st.1 + st'.1.total := by
  intro prs
  induction prs with
  | nil =>
    intro st st' h
    simp only [processChunk] at h
    injection h with h1
    subst h1
    omega
  | cons pr rest ih =>
    intro st st' h
    rw [processChunk_cons_eq] at h
    rcases Option.bind_eq_some.1 h with ⟨st1, hp, h2⟩
    have h3 := processPair_counters cfg st pr st1 hp
    have h4 := ih st1 st' h2
    omega

theorem runLoopAux_counters (cfg : Config) (chunkSize : Nat) :
    ∀ (fuel : Nat) (c0 : Counters) (s1 s2 : List Record) (out : List Table × Counters),
      runLoopAux cfg chunkSize fuel c0 s1 s2 = some out →
      out.2.valid + sumFails out.2 + c0.total =
        c0.valid + sumFails c0 + out.2.total := by
  intro fuel
  induction fuel with
  | zero =>
    intro c0 s1 s2 out h
    simp only [runLoopAux] at h
    injection h with h1
    subst h1
    dsimp only
  | succ fuel ih =>
    intro c0 s1 s2 out h
    simp only [runLoopAux] at h
    split at h
    · injection h with h1
      subst h1
      dsimp only
    · split at h
      · exact Option.noConfusion h
      · rename_i c1 t1 heq
        split at h
        · exact Option.noConfusion h
        · rename_i tables cf heq2
          injection h with h1
          subst h1
          have h3 := processChunk_counters cfg _ _ _ heq
          have h4 := ih c1 _ _ _ heq2
          simp only at h3 h4 ⊢
          omega

/-- C2: each processed pair increments `total` exactly once and exactly
one of `valid` or a single failure counter (first conjunct), and therefore
every completed run of the chunked loop whose counters initially satisfy
`total = valid + Σ fails` — in particular the zero counters, hence the
state after any prefix of the input — ends with
`total = valid + Σ fails` (second conjunct). -/
theorem counters_invariant :
    (∀ (cfg : Config) (st : Counters × Table) (pr : Record × Record)
        (st' : Counters × Table), processPair cfg st pr = some st' →
      st'.1.total = st.1.total + 1 ∧
      st'.1.valid + sumFails st'.1 = st.1.valid + sumFails st.1 + 1) ∧
    (∀ (cfg : Config) (chunkSize : Nat) (c0 : Counters) (s1 s2 : List Record)
        (out : List Table × Counters),
      c0.total = c0.valid + sumFails c0 →
      runLoop cfg chunkSize c0 s1 s2 = some out →
      out.2.total = out.2.valid + sumFails out.2) := by
  constructor
  · exact processPair_counters
  · intro cfg chunkSize c0 s1 s2 out hinv h
    rw [← runLoopAux_eq cfg chunkSize s1.length c0 s1 s2 (le_refl _)] at h
    have h2 := runLoopAux_counters cfg chunkSize s1.length c0 s1 s2 out h
    omega


/-- Witness for C2: one concrete pair step and one concrete two-pair
run. -/
theorem counters_invariant_witness :
    ((⟨1, 1, fun _ => 0⟩ : Counters).total = (⟨0, 0, fun _ => 0⟩ : Counters).total + 1 ∧
     (⟨1, 1, fun _ => 0⟩ : Counters).valid + sumFails ⟨1, 1, fun _ => 0⟩ =
       (⟨0, 0, fun _ => 0⟩ : Counters).valid + sumFails ⟨0, 0, fun _ => 0⟩ + 1) ∧
    cW.total = cW.valid + sumFails cW :=
  ⟨counters_invariant.1 fixedCfg (zeroCounters, []) (validRec1, validRec2)
      (⟨1, 1, fun _ => 0⟩, tW) (by decide),
   counters_invariant.2 fixedCfg 1 zeroCounters [validRec1, validRec1]
      [validRec2, validRec2] ([tW, tW], cW) (by decide)
      (by rw [← runLoopAux_eq fixedCfg 1 2 zeroCounters _ _ (by decide)]; decide)⟩

-- ---------- C1 ----------

theorem rowsSum_nil (k : BKey) : rowsSum [] k = (0, 0) := rfl

theorem rowsSum_cons (r : Row) (rows : Table) (k : BKey) :
    rowsSum (r :: rows) k = (if r.1 = k then r.2 else (0, 0)) + rowsSum rows k := by
  refine Prod.ext ?_ ?_ <;> by_cases h : r.1 = k <;>
    simp [rowsSum, List.filter_cons, h]

theorem rowsSum_append (a b : Table) (k : BKey) :
    rowsSum (a ++ b) k = rowsSum a k + rowsSum b k := by
  refine Prod.ext ?_ ?_ <;> simp [rowsSum, List.filter_append]

theorem bumpCell_eq_add (c : Nat × Nat) (f : Flip) :
    bumpCell c f = c + bumpCell (0, 0) f := by
  cases f <;> refine Prod.ext ?_ ?_ <;> simp [bumpCell]

theorem rowsSum_insertTable (t : Table) (k : BKey) (f : Flip) (k' : BKey) :
    rowsSum (insertTable t k f) k' =
      rowsSum t k' + (if k' = k then bumpCell (0, 0) f else (0, 0)) := by
  induction t with
  | nil =>
    rw [show insertTable [] k f = [(k, bumpCell (0, 0) f)] from rfl,
      rowsSum_cons, rowsSum_nil]
    dsimp only
    by_cases h : k' = k
    · rw [if_pos h.symm, if_pos h]
      abel
    · rw [if_neg (fun he => h he.symm), if_neg h]
  | cons r rest ih =>
    by_cases hr : r.1 = k
    · rw [show insertTable (r :: rest) k f = (r.1, bumpCell r.2 f) :: rest from by
        simp [insertTable, hr]]
      rw [rowsSum_cons, rowsSum_cons]
      dsimp only
      by_cases hk : r.1 = k'
      · have hkk : k' = k := hk.symm.trans hr
        rw [if_pos hk, if_pos hk, if_pos hkk, bumpCell_eq_add]
        abel
      · have hkk : ¬ k' = k := fun he => hk (hr.trans he.symm)
        rw [if_neg hk, if_neg hk, if_neg hkk]
        abel
    · rw [show insertTable (r :: rest) k f = r :: insertTable rest k f from by
        simp [insertTable, hr]]
      rw [rowsSum_cons, rowsSum_cons, ih]
      abel

theorem specAgg_nil (cfg : Config) (k : BKey) :
    specSequentialAggregate cfg [] k = (0, 0) := rfl

theorem specAgg_cons_none (cfg : Config) (pr : Record × Record)
    (rest : List (Record × Record)) (k : BKey)
    (h : validOutcome cfg pr = none) :
    specSequentialAggregate cfg (pr :: rest) k =
      specSequentialAggregate cfg rest k := by
  simp [specSequentialAggregate, List.filterMap_cons, h]

theorem specAgg_cons_some (cfg : Config) (pr : Record × Record)
    (rest : List (Record × Record)) (k K : BKey) (f : Flip)
    (h : validOutcome cfg pr = some (K, f)) :
    specSequentialAggregate cfg (pr :: rest) k =
      specSequentialAggregate cfg rest k +
        (if k = K then bumpCell (0, 0) f else (0, 0)) := by
  cases f <;> by_cases hk : k = K <;>
    refine Prod.ext ?_ ?_ <;>
      simp [specSequentialAggregate, List.filterMap_cons, h, List.count_cons, hk, bumpCell]

theorem specAgg_append (cfg : Config) (a b : List (Record × Record)) (k : BKey) :
    specSequentialAggregate cfg (a ++ b) k =
      specSequentialAggregate cfg a k + specSequentialAggregate cfg b k := by
  refine Prod.ext ?_ ?_ <;>
    simp [specSequentialAggregate, List.filterMap_append, List.count_append]

theorem processChunk_table (cfg : Config) :
    ∀ (prs : List (Record × Record)) (st st' : Counters × Table),
      processChunk cfg st prs = some st' → ∀ k,
      rowsSum st'.2 k = rowsSum st.2 k + specSequentialAggregate cfg prs k := by
  intro prs
  induction prs with
  | nil =>
    intro st st' h k
    simp only [processChunk] at h
    injection h with h1
    subst h1
    simp [specAgg_nil]
  | cons pr rest ih =>
    intro st st' h k
    rw [processChunk_cons_eq] at h
    rcases Option.bind_eq_some.1 h with ⟨st1, hp, h2⟩
    rcases hc : classify_pair cfg pr.1 pr.2 with _ | res
    · simp only [processPair, hc] at hp
      exact Option.noConfusion hp
    · rcases res with r | ⟨s, rbs, f⟩
      · simp only [processPair, hc] at hp
        injection hp with hp1
        subst hp1
        have hv : validOutcome cfg pr = none := by
          simp [validOutcome, hc]
        rw [ih _ _ h2 k, specAgg_cons_none cfg pr rest k hv]
      · simp only [processPair, hc] at hp
        injection hp with hp1
        subst hp1
        have hv : validOutcome cfg pr = some ((s.barcode1, s.barcode2, rbs), f) := by
          simp [validOutcome, hc]
        rw [ih _ _ h2 k, specAgg_cons_some cfg pr rest k _ f hv]
        show rowsSum (insertTable st.2 (s.barcode1, s.barcode2, rbs) f) k + _ = _
        rw [rowsSum_insertTable]
        abel

theorem zip_take_take {α β : Type} :
    ∀ (n : Nat) (l1 : List α) (l2 : List β),
      (l1.take n).zip (l2.take n) = (l1.zip l2).take n := by
  intro n
  induction n with
  | zero =>
    intro l1 l2
    simp
  | succ n ih =>
    intro l1 l2
    cases l1 with
    | nil => simp
    | cons a t1 =>
      cases l2 with
      | nil => simp
      | cons b t2 => simp [ih]

theorem zip_drop_drop {α β : Type} :
    ∀ (n : Nat) (l1 : List α) (l2 : List β),
      (l1.drop n).zip (l2.drop n) = (l1.zip l2).drop n := by
  intro n
  induction n with
  | zero =>
    intro l1 l2
    simp
  | succ n ih =>
    intro l1 l2
    cases l1 with
    | nil => simp
    | cons a t1 =>
      cases l2 with
      | nil => simp
      | cons b t2 => simp [ih]

theorem runLoopAux_tables (cfg : Config) (chunkSize : Nat) (hk : 1 ≤ chunkSize) :
    ∀ (fuel : Nat) (c0 : Counters) (s1 s2 : List Record) (out : List Table × Counters),
      runLoopAux cfg chunkSize fuel c0 s1 s2 = some out → s1.length ≤ fuel →
      ∀ k, rowsSum out.1.flatten k = specSequentialAggregate cfg (s1.zip s2) k := by
  have hnil1 : ∀ (l : List Record), l.take chunkSize = [] → l = [] := by
    intro l hl
    cases l with
    | nil => rfl
    | cons a t =>
      cases chunkSize with
      | zero => omega
      | succ m => simp at hl
  intro fuel
  induction fuel with
  | zero =>
    intro c0 s1 s2 out h hlen k
    have hs : s1 = [] := List.eq_nil_of_length_eq_zero (Nat.le_zero.1 hlen)
    subst hs
    simp only [runLoopAux] at h
    injection h with h1
    subst h1
    simp [rowsSum_nil, specAgg_nil]
  | succ fuel ih =>
    intro c0 s1 s2 out h hlen k
    simp only [runLoopAux] at h
    split at h
    · rename_i hcond
      injection h with h1
      subst h1
      have hz : s1.zip s2 = [] := by
        rw [Bool.or_eq_true] at hcond
        rcases hcond with hc | hc
        · rw [hnil1 s1 (List.isEmpty_iff.1 hc)]
          rfl
        · rw [hnil1 s2 (List.isEmpty_iff.1 hc)]
          exact List.zip_nil_right
      rw [hz]
      simp [rowsSum_nil, specAgg_nil]
    · rename_i hcond
      split at h
      · exact Option.noConfusion h
      · rename_i c1 t1 heq
        split at h
        · exact Option.noConfusion h
        · rename_i tables cf heq2
          injection h with h1
          subst h1
          dsimp only
          rw [show (t1 :: tables).flatten = t1 ++ tables.flatten from rfl, rowsSum_append]
          have h3 := processChunk_table cfg _ _ _ heq k
          dsimp only at h3
          rw [zip_take_take, rowsSum_nil,
            show ((0, 0) : Nat × Nat) = 0 from rfl, zero_add] at h3
          have hs1ne : s1 ≠ [] := by
            intro he
            apply hcond
            rw [he]
            simp
          have hlen2 : (s1.drop chunkSize).length ≤ fuel := by
            have hp := List.length_pos.2 hs1ne
            rw [List.length_drop]
            omega
          have h4 := ih c1 (s1.drop chunkSize) (s2.drop chunkSize) (tables, cf) heq2 hlen2 k
          dsimp only at h4
          rw [zip_drop_drop] at h4
          have h5 := specAgg_append cfg ((s1.zip s2).take chunkSize)
            ((s1.zip s2).drop chunkSize) k
          rw [List.take_append_drop] at h5
          rw [h3, h4, h5]

theorem rowsSum_keyed (g : BKey → Nat × Nat) (k : BKey) :
    ∀ (ks : List BKey), ks.Nodup →
      rowsSum (ks.map (fun k' => (k', g k'))) k = if k ∈ ks then g k else (0, 0) := by
  intro ks
  induction ks with
  | nil =>
    intro _
    simp [rowsSum_nil]
  | cons a t ih =>
    intro hnd
    rcases List.nodup_cons.1 hnd with ⟨ha, ht⟩
    rw [List.map_cons, rowsSum_cons, ih ht]
    dsimp only
    by_cases hk : a = k
    · subst hk
      rw [if_pos rfl, if_neg ha, if_pos (List.mem_cons_self _ _)]
      rw [show ((0, 0) : Nat × Nat) = 0 from rfl, add_zero]
    · rw [if_neg hk]
      by_cases hm : k ∈ t
      · rw [if_pos hm, if_pos (List.mem_cons_of_mem _ hm)]
        rw [show ((0, 0) : Nat × Nat) = 0 from rfl, zero_add]
      · rw [if_neg hm, if_neg (by
          intro hc
          rcases List.mem_cons.1 hc with hc1 | hc2
          · exact hk hc1.symm
          · exact hm hc2)]
        rw [show ((0, 0) : Nat × Nat) = 0 from rfl, zero_add]

theorem rowsSum_zero_of_not_mem (rows : Table) (k : BKey)
    (h : ¬ k ∈ rows.map (fun r => r.1)) : rowsSum rows k = (0, 0) := by
  induction rows with
  | nil => rfl
  | cons r t ih =>
    rw [rowsSum_cons]
    have h1 : ¬ r.1 = k := by
      intro he
      apply h
      rw [List.map_cons]
      exact he ▸ List.mem_cons_self _ _
    have h2 : ¬ k ∈ t.map (fun r => r.1) := by
      intro hm
      apply h
      rw [List.map_cons]
      exact List.mem_cons_of_mem _ hm
    rw [if_neg h1, ih h2]
    rfl

theorem concat_merge_sums (tables : List Table) (merged : Table)
    (h : concat_parquet_dir tables = some merged) (k : BKey) :
    rowsSum merged k = rowsSum tables.flatten k := by
  unfold concat_parquet_dir at h
  split at h
  · exact Option.noConfusion h
  · injection h with h1
    subst h1
    rw [rowsSum_keyed (fun k' => rowsSum tables.flatten k') k _
      (List.nodup_dedup _)]
    by_cases hm : k ∈ (tables.flatten.map (fun r => r.1)).dedup
    · rw [if_pos hm]
    · rw [if_neg hm]
      exact (rowsSum_zero_of_not_mem _ _ (fun hmem => hm (List.mem_dedup.2 hmem))).symm

/-- C1: for every chunk size ≥ 1, whenever the chunked loop completes and
the merge stage (concatenate all per-chunk tables, group by
`(barcode1, barcode2, gre)`, sum both count columns) produces a table, that
table carries at every key exactly the counts a single, unchunked,
fully-sequential pass over the zipped read pairs produces
(`specSequentialAggregate`); the right-hand side does not mention the chunk
size, so the final per-key counts are invariant under it. -/
theorem merge_equals_sequential (cfg : Config) (chunkSize : Nat)
    (c0 : Counters) (s1 s2 : List Record) (tables : List Table) (c : Counters)
    (merged : Table) (hk : 1 ≤ chunkSize)
    (hrun : runLoop cfg chunkSize c0 s1 s2 = some (tables, c))
    (hmerge : concat_parquet_dir tables = some merged) (k : BKey) :
    rowsSum merged k = specSequentialAggregate cfg (s1.zip s2) k := by
  rw [← runLoopAux_eq cfg chunkSize s1.length c0 s1 s2 (le_refl _)] at hrun
  have h2 := runLoopAux_tables cfg chunkSize hk s1.length c0 s1 s2 (tables, c)
    hrun (le_refl _) k
  rw [concat_merge_sums tables merged hmerge k]
  exact h2


/-- Witness for C1: two chunks of one valid pair each merge to the
two-count row of the sequential aggregate. -/
theorem merge_equals_sequential_witness :
    rowsSum mergedW KW =
      specSequentialAggregate fixedCfg
        ([validRec1, validRec1].zip [validRec2, validRec2]) KW :=
  merge_equals_sequential fixedCfg 1 zeroCounters [validRec1, validRec1]
    [validRec2, validRec2] [tW, tW] cW mergedW (by decide)
    (by rw [← runLoopAux_eq fixedCfg 1 2 zeroCounters _ _ (by decide)]; decide)
    (by decide) KW

-- ---------- C8 ----------

theorem slices_flatten (cs : Nat) (hcs : 1 ≤ cs) :
    ∀ (n : Nat) (rows : Table), rows.length ≤ n →
      ((List.range ((rows.length + cs - 1) / cs)).map (fun i =>
        (rows.drop (i * cs)).take (min cs (rows.length - i * cs)))).flatten = rows := by
  intro n
  induction n with
  | zero =>
    intro rows h
    have hr : rows = [] := List.eq_nil_of_length_eq_zero (Nat.le_zero.1 h)
    subst hr
    rw [show (([] : Table).length + cs - 1) / cs = 0 from by
      simp only [List.length_nil, Nat.zero_add]
      exact Nat.div_eq_of_lt (by omega)]
    rfl
  | succ n ih =>
    intro rows h
    by_cases h0 : rows.length = 0
    · have hr : rows = [] := List.eq_nil_of_length_eq_zero h0
      subst hr
      rw [show (([] : Table).length + cs - 1) / cs = 0 from by
        simp only [List.length_nil, Nat.zero_add]
        exact Nat.div_eq_of_lt (by omega)]
      rfl
    · have hlen1 : 1 ≤ rows.length := Nat.pos_of_ne_zero h0
      have hchunks : (rows.length + cs - 1) / cs =
          ((rows.drop cs).length + cs - 1) / cs + 1 := by
        rw [List.length_drop]
        by_cases hcl : cs ≤ rows.length
        · rw [show rows.length - cs + cs - 1 = rows.length - 1 from by omega,
            show rows.length + cs - 1 = (rows.length - 1) + cs from by omega,
            Nat.add_div_right _ (by omega)]
        · rw [show rows.length - cs = 0 from by omega,
            show rows.length + cs - 1 = (rows.length - 1) + cs from by omega,
            Nat.add_div_right _ (by omega),
            Nat.div_eq_of_lt (show rows.length - 1 < cs from by omega),
            Nat.div_eq_of_lt (show 0 + cs - 1 < cs from by omega)]
      rw [hchunks, List.range_succ_eq_map, List.map_cons, List.map_map]
      have hhead : (rows.drop (0 * cs)).take (min cs (rows.length - 0 * cs)) =
          rows.take cs := by
        rw [Nat.zero_mul, List.drop_zero, Nat.sub_zero]
        by_cases hcl : cs ≤ rows.length
        · rw [min_eq_left hcl]
        · push_neg at hcl
          rw [min_eq_right (le_of_lt hcl), List.take_length,
            List.take_of_length_le (le_of_lt hcl)]
      have htail : ((fun i => (rows.drop (i * cs)).take (min cs (rows.length - i * cs))) ∘
          Nat.succ) = (fun i =>
            ((rows.drop cs).drop (i * cs)).take (min cs ((rows.drop cs).length - i * cs))) := by
        funext i
        simp only [Function.comp]
        rw [List.drop_drop, List.length_drop, Nat.succ_mul, Nat.sub_sub,
          Nat.add_comm (i * cs) cs]
      rw [hhead, htail]
      have hih := ih (rows.drop cs) (by
        rw [List.length_drop]
        omega)
      rw [show ∀ (x : Table) (xs : List Table), (x :: xs).flatten = x ++ xs.flatten
        from fun x xs => rfl]
      rw [hih, List.take_append_drop]

theorem save_by_chunks_spec (rows : Table) (cs : Nat) (hcs : 1 ≤ cs) :
    ∃ files, save_by_chunks rows cs = some files ∧
      files.flatten = rows ∧ ∀ f ∈ files, f.length ≤ cs := by
  refine ⟨(List.range ((rows.length + cs - 1) / cs)).map (fun i =>
    (rows.drop (i * cs)).take (min cs (rows.length - i * cs))), ?_, ?_, ?_⟩
  · unfold save_by_chunks
    rw [if_neg (by omega)]
  · exact slices_flatten cs hcs rows.length rows (le_refl _)
  · intro f hf
    rcases List.mem_map.1 hf with ⟨i, _, rfl⟩
    exact le_trans (List.length_take_le _ _) (min_le_left _ _)

theorem partitionPairsLoop_spec (df : Table) (ps : Nat) (hps : 1 ≤ ps) :
    ∀ (pairs : List (List Char × List Char)),
      ∃ out, partitionPairsLoop df ps pairs = some out ∧
        (∀ p files, (p, files) ∈ out →
          (∀ f ∈ files, f.length ≤ ps) ∧
          files.flatten = df.filter (matchesPair p.1 p.2) ∧
          df.filter (matchesPair p.1 p.2) ≠ []) ∧
        (∀ p, p ∈ pairs → df.filter (matchesPair p.1 p.2) ≠ [] →
          ∃ files, (p, files) ∈ out) := by
  intro pairs
  induction pairs with
  | nil => exact ⟨[], rfl, by simp, by simp⟩
  | cons p rest ih =>
    rcases ih with ⟨out, hout, hsound, hcompl⟩
    rcases p with ⟨b1, b2⟩
    by_cases hemp : (df.filter (matchesPair b1 b2)).isEmpty = true
    · refine ⟨out, ?_, hsound, ?_⟩
      · simp [partitionPairsLoop, hemp, hout]
      · intro q hq hqne
        rcases List.mem_cons.1 hq with rfl | hq2
        · exact absurd (List.isEmpty_iff.1 hemp) hqne
        · exact hcompl q hq2 hqne
    · rcases save_by_chunks_spec (df.filter (matchesPair b1 b2)) ps hps with
        ⟨files, hsf, hfl, hfb⟩
      refine ⟨((b1, b2), files) :: out, ?_, ?_, ?_⟩
      · simp [partitionPairsLoop, hemp, hsf, hout]
      · intro q qfiles hq
        rcases List.mem_cons.1 hq with he | hq2
        · injection he with he1 he2
          subst he1
          subst he2
          refine ⟨hfb, hfl, ?_⟩
          intro hc
          apply hemp
          rw [hc]
          rfl
        · exact hsound q qfiles hq2
      · intro q hq hqne
        rcases List.mem_cons.1 hq with rfl | hq2
        · exact ⟨files, List.mem_cons_self _ _⟩
        · rcases hcompl q hq2 hqne with ⟨fs, hfs⟩
          exact ⟨fs, List.mem_cons_of_mem _ hfs⟩

/-- C8 amended: for every merged table and every positive partition row
limit, the writer succeeds, every written file holds at most the limit of
rows, the files written for a barcode pair concatenate exactly to the
table's rows filtered to that pair (hence their multiset union equals the
unsplit filtered table), only pairs with at least one row get files, and
every row of the table is covered by its own pair's files. -/
theorem partition_amended (df : Table) (ps : Nat) (hps : 1 ≤ ps) :
    ∃ out, write_partitioned_parquet df ps = some out ∧
      (∀ p files, (p, files) ∈ out →
        (∀ f ∈ files, f.length ≤ ps) ∧
        files.flatten = df.filter (matchesPair p.1 p.2) ∧
        df.filter (matchesPair p.1 p.2) ≠ []) ∧
      (∀ r ∈ df, ∃ files, ((r.1.1, r.1.2.1), files) ∈ out) := by
  rcases partitionPairsLoop_spec df ps hps
      (((df.map (fun r => r.1.1)).dedup).flatMap (fun b1 =>
        ((df.map (fun r => r.1.2.1)).dedup).map (fun b2 => (b1, b2)))) with
    ⟨out, hout, hsound, hcompl⟩
  refine ⟨out, ?_, hsound, ?_⟩
  · simp only [write_partitioned_parquet]
    exact hout
  · intro r hr
    apply hcompl (r.1.1, r.1.2.1)
    · apply List.mem_flatMap.2
      refine ⟨r.1.1, List.mem_dedup.2 (List.mem_map.2 ⟨r, hr, rfl⟩), ?_⟩
      exact List.mem_map.2 ⟨r.1.2.1, List.mem_dedup.2 (List.mem_map.2 ⟨r, hr, rfl⟩), rfl⟩
    · apply List.ne_nil_of_mem (a := r)
      apply List.mem_filter.2
      exact ⟨hr, by simp [matchesPair]⟩

/-- C8 counterexample: with partition row limit 0 (a configurable value),
the writer panics — integer division by zero in `save_by_chunks` — on a
one-row merged table, so it does not produce files whose union is the
table. -/
theorem partition_zero_limit_counterexample :
    write_partitioned_parquet [(KW, (1, 0))] 0 = none := by decide

/-- Witness for C8 amended at a one-row table and limit 1. -/
theorem partition_amended_witness :
    ∃ out, write_partitioned_parquet [(KW, (1, 0))] 1 = some out ∧
      (∀ p files, (p, files) ∈ out →
        (∀ f ∈ files, f.length ≤ 1) ∧
        files.flatten = List.filter (matchesPair p.1 p.2) [(KW, (1, 0))] ∧
        List.filter (matchesPair p.1 p.2) [(KW, (1, 0))] ≠ []) ∧
      (∀ r ∈ [((KW, (1, 0)) : Row)], ∃ files, ((r.1.1, r.1.2.1), files) ∈ out) :=
  partition_amended [(KW, (1, 0))] 1 (by decide)
